import Mathlib

/-!
Verification development for the GymFlow occupancy pipeline (App.tsx and
services/geminiService.ts).

Modelling conventions for the TypeScript source:
* JavaScript strings are modelled as `List Char`.
* JavaScript numbers appearing on the modelled code paths are exact
  integers or rationals, modelled as `Int` / `Rat`; a `NaN` produced by a
  failed `parseInt` / `parseFloat` is modelled as `Option.none`.
* A thrown-and-caught row-level exception is modelled by `Option.none`.
* `Math.round` (round half toward positive infinity) is Mathlib's `round`.
-/

namespace GymFlow

/-- Model of JavaScript `String.prototype.trim`: drop whitespace from both
ends of the character list. -/
def jsTrim (s : List Char) : List Char :=
  ((s.dropWhile Char.isWhitespace).reverse.dropWhile Char.isWhitespace).reverse

/-- Split a character list at every character satisfying `p` (model of
`String.prototype.split` with a character-class regex). -/
def splitPred (p : Char → Bool) : List Char → List (List Char)
  | [] => [[]]
  | a :: rest =>
    match splitPred p rest with
    | [] => [[]]
    | s :: ss => if p a then [] :: s :: ss else (a :: s) :: ss

/-- Split at every occurrence of the single character `c` (model of
`String.prototype.split` with a one-character separator). -/
def splitChar (c : Char) : List Char → List (List Char) :=
  splitPred (fun a => a = c)

/-- Drop one trailing carriage return, so that splitting on `'\n'` and then
applying `stripCR` models splitting on the regex `/\r?\n/`. -/
def stripCR (l : List Char) : List Char :=
  if l.getLast? = some '\r' then l.dropLast else l

/-- Replace the first occurrence of the character `c` by the list `r`
(model of `String.prototype.replace` with a plain-string pattern). -/
def replaceFirstChar (c : Char) (r : List Char) : List Char → List Char
  | [] => []
  | a :: rest => if a = c then r ++ rest else a :: replaceFirstChar c r rest

/-- Model of the regex replace `/^"|"$/g` with the empty string: one leading
and one trailing double quote are removed. -/
def stripQuotes (l : List Char) : List Char :=
  let l1 := match l with
    | '"' :: r => r
    | r => r
  match l1.getLast? with
  | some '"' => l1.dropLast
  | _ => l1

/-- Lower-casing of one character as `String.prototype.toLowerCase` does it,
restricted to ASCII plus the accented Spanish capitals that can occur in the
day names this program handles. -/
def jsCharToLower (c : Char) : Char :=
  if c = 'Á' then 'á' else if c = 'É' then 'é' else if c = 'Í' then 'í'
  else if c = 'Ó' then 'ó' else if c = 'Ú' then 'ú' else if c = 'Ñ' then 'ñ'
  else c.toLower

/-- Upper-casing of one character, same scope as `jsCharToLower`. -/
def jsCharToUpper (c : Char) : Char :=
  if c = 'á' then 'Á' else if c = 'é' then 'É' else if c = 'í' then 'Í'
  else if c = 'ó' then 'Ó' else if c = 'ú' then 'Ú' else if c = 'ñ' then 'Ñ'
  else c.toUpper

/-- Model of `String.prototype.toLowerCase` on the character range above. -/
def toLowerJS (s : List Char) : List Char :=
  s.map jsCharToLower

/-- Model of `s.charAt(0).toUpperCase() + s.slice(1)`. -/
def capitalizeJS : List Char → List Char
  | [] => []
  | c :: rest => jsCharToUpper c :: rest

/-- Value of a list of decimal digits. -/
def digitsToNat (l : List Char) : ℕ :=
  l.foldl (fun acc c => acc * 10 + (c.toNat - 48)) 0

/-- Model of the ECMAScript `parseInt` builtin with radix 10 on decimal
input: skip leading whitespace, read an optional sign and then a maximal
run of decimal digits; no digits means `NaN`, modelled as `none`. -/
def parseIntJS (s : List Char) : Option ℤ :=
  let t := s.dropWhile Char.isWhitespace
  let signRest : ℤ × List Char :=
    match t with
    | '-' :: r => (-1, r)
    | '+' :: r => (1, r)
    | r => (1, r)
  let digits := signRest.2.takeWhile Char.isDigit
  if digits.isEmpty then none
  else some (signRest.1 * (digitsToNat digits : ℤ))

/-- Model of the ECMAScript `parseFloat` builtin on decimal input: skip
leading whitespace, read an optional sign, an integer part, an optional
fractional part and an optional exponent, all as the longest valid numeric
literal at the front of the string; rationals (built with `mkRat` so that
they evaluate by kernel reduction) stand in for the exact real value. No
digits at all means `NaN`, modelled as `none`. -/
def parseFloatJS (s : List Char) : Option ℚ :=
  let t := s.dropWhile Char.isWhitespace
  let signRest : ℤ × List Char :=
    match t with
    | '-' :: r => (-1, r)
    | '+' :: r => (1, r)
    | r => (1, r)
  let intPart := signRest.2.takeWhile Char.isDigit
  let afterInt := signRest.2.drop intPart.length
  let fracParts : List Char × List Char :=
    match afterInt with
    | '.' :: r => (r.takeWhile Char.isDigit, r.drop (r.takeWhile Char.isDigit).length)
    | r => ([], r)
  if intPart.isEmpty ∧ fracParts.1.isEmpty then none
  else
    let expPart : ℤ :=
      match fracParts.2 with
      | 'e' :: r =>
        match parseIntJS r with
        | some e => e
        | none => 0
      | 'E' :: r =>
        match parseIntJS r with
        | some e => e
        | none => 0
      | _ => 0
    let base : ℤ :=
      signRest.1 * (digitsToNat intPart * 10 ^ fracParts.1.length + digitsToNat fracParts.1 : ℕ)
    some (if 0 ≤ expPart then
            mkRat (base * 10 ^ expPart.toNat) (10 ^ fracParts.1.length)
          else
            mkRat base (10 ^ fracParts.1.length * 10 ^ (-expPart).toNat))

/-- Executable form of `Math.round` on an exact rational: half-up rounding
`⌊q + 1/2⌋`, written with Euclidean division so the kernel can evaluate it
(theorem `roundRat_eq_round` below identifies it with Mathlib's `round`). -/
def roundRat (q : ℚ) : ℤ :=
  (2 * q.num + q.den) / (2 * (q.den : ℤ))

/-- Executable form of `Math.round(a / n)` for an integer sum `a` over `n`
values: half-up rounding of the exact quotient (theorem
`roundIntDiv_eq_round` below identifies it with `round ((a : ℚ) / n)`). -/
def roundIntDiv (a : ℤ) (n : ℕ) : ℤ :=
  (2 * a + n) / (2 * (n : ℤ))

/-- Day count from civil date (days since 1970-01-01, proleptic Gregorian),
linear in `d` so that out-of-range day numbers roll over exactly as
JavaScript `MakeDay` does. -/
def daysFromCivil (y m d : ℤ) : ℤ :=
  let y' := if m ≤ 2 then y - 1 else y
  let era := y'.fdiv 400
  let yoe := y' - era * 400
  let mp := (m + 9).fmod 12
  let doy := (153 * mp + 2).fdiv 5 + d - 1
  let doe := yoe * 365 + yoe.fdiv 4 - yoe.fdiv 100 + doy
  era * 146097 + doe - 719468

/-- Time value, in minutes since the epoch, of `new Date(y, mIdx, d, h, mi)`:
month overflow rolls the year, day and time overflow roll the day, exactly
as the ECMAScript `MakeDay`/`MakeDate` normalization does. -/
def jsDateMinutes (y mIdx d h mi : ℤ) : ℤ :=
  let ym := y + mIdx.fdiv 12
  let mm := mIdx.fmod 12
  daysFromCivil ym (mm + 1) d * 1440 + h * 60 + mi

/-- Largest representable JavaScript time value, in minutes
(8.64e15 milliseconds). -/
def maxDateMinutes : ℤ := 144000000000

/-- Weekday index of a time value in minutes, 0 = Sunday (ECMAScript
`WeekDay`; the epoch day 1970-01-01 was a Thursday). -/
def weekdayOfMinutes (tv : ℤ) : ℤ :=
  (tv.fdiv 1440 + 4).fmod 7

/-- Spanish weekday names as `Intl.DateTimeFormat('es-ES', { weekday:
'long' })` produces them, indexed 0 = Sunday. -/
def spanishDayName (w : ℤ) : List Char :=
  if w = 0 then "domingo".data
  else if w = 1 then "lunes".data
  else if w = 2 then "martes".data
  else if w = 3 then "miércoles".data
  else if w = 4 then "jueves".data
  else if w = 5 then "viernes".data
  else "sábado".data

/-- Model of `dayName.replace(/ss$/, 's')`: a trailing double `s` loses one
letter. -/
def stripSS (l : List Char) : List Char :=
  match l.reverse with
  | 's' :: 's' :: _ => l.dropLast
  | _ => l

/-- One validated occupancy record (the `AforoEntry` interface of the
source; `timestamp` is the absolute time in minutes since the epoch,
standing in for the ISO string the source stores). -/
structure AforoEntry where
  timestamp : ℤ
  occupancy : ℤ
  dayOfWeek : List Char
  hour : ℤ
  deriving DecidableEq, Repr

/-- Row normalizer: the body of the `map` inside `parseCSV` (App.tsx lines
45-69), one raw line to one entry or `none`.  A `NaN` reaching the `Date`
constructor makes `toISOString` throw, which the source catches row-locally;
here that is the `none` branch. -/
def parseLine (delim : Char) (line : List Char) : Option AforoEntry :=
  let columns := (splitChar delim line).map (fun c => jsTrim (stripQuotes c))
  if columns.length < 3 then none
  else
    let fechaStr := columns.getD 0 []
    let horaStr := columns.getD 1 []
    let occupancyStr :=
      jsTrim (replaceFirstChar ',' ['.'] (replaceFirstChar '%' [] (columns.getD 2 [])))
    let dateParts := (splitPred (fun c => c = '/' ∨ c = '-') fechaStr).map parseIntJS
    let timeParts := (splitChar ':' horaStr).map parseIntJS
    let dOpt := dateParts.getD 0 none
    let mOpt := dateParts.getD 1 none
    let yOpt := (dateParts.getD 2 none).map (fun v => if v < 100 then v + 2000 else v)
    let hourOpt := timeParts.getD 0 none
    let mi := (timeParts.getD 1 none).getD 0
    match dOpt, mOpt, yOpt, hourOpt with
    | some d, some m, some y, some hour =>
      let tv := jsDateMinutes y (m - 1) d hour mi
      if tv < -maxDateMinutes ∨ maxDateMinutes < tv then none
      else
        let dayName := capitalizeJS (stripSS (spanishDayName (weekdayOfMinutes tv)))
        some { timestamp := tv
               occupancy := ((parseFloatJS occupancyStr).map roundRat).getD 0
               dayOfWeek := dayName
               hour := hour }
    | _, _, _, _ => none

/-- Model of the final `.filter(d => d !== null && d.occupancy > 2)` of
`parseCSV`, acting on one mapped row. -/
def keepValid (d : Option AforoEntry) : Option AforoEntry :=
  match d with
  | some e => if 2 < e.occupancy then some e else none
  | none => none

/-- Nonblank lines of the raw text: `text.split(/\r?\n/).filter(line =>
line.trim() !== '')`. -/
def csvLines (text : List Char) : List (List Char) :=
  ((splitChar '\n' text).map stripCR).filter (fun l => !(jsTrim l).isEmpty)

/-- Delimiter detection `lines[0].includes(';') ? ';' : ','` (App.tsx
line 43). -/
def delimiterOf (header : List Char) : Char :=
  if ';' ∈ header then ';' else ','

/-- Batch parser `parseCSV` (App.tsx lines 40-71): discard the header line,
detect the delimiter from it, normalize each remaining line, keep rows
above the noise floor. -/
def parseCSV (text : List Char) : List AforoEntry :=
  match csvLines text with
  | [] => []
  | header :: rows =>
    if rows.isEmpty then []
    else (rows.map (parseLine (delimiterOf header))).filterMap keepValid

/-- Case-insensitive day match `d.dayOfWeek.toLowerCase() ===
selectedDay.toLowerCase()`. -/
def matchesDay (selectedDay : List Char) (e : AforoEntry) : Bool :=
  toLowerJS e.dayOfWeek = toLowerJS selectedDay

/-- Rounded integer mean of a list of integers,
`Math.round(xs.reduce((a, b) => a + b, 0) / xs.length)`. -/
def roundAvg (l : List ℤ) : ℤ :=
  roundIntDiv l.sum l.length

/-- Occupancy aggregator `filteredData` (App.tsx lines 100-113): filter the
raw entries to the selected day, group by hour, emit one point per distinct
hour carrying the rounded mean occupancy, ascending by hour (the source
reaches the same order via `Object.keys` plus a final `sort`). -/
def filteredData (rawData : List AforoEntry) (selectedDay : List Char) :
    List AforoEntry :=
  let dayData := rawData.filter (matchesDay selectedDay)
  let hours := List.insertionSort (· ≤ ·) (dayData.map (·.hour)).dedup
  hours.map (fun h =>
    { timestamp := 0
      dayOfWeek := selectedDay
      hour := h
      occupancy := roundAvg ((dayData.filter (fun e => e.hour == h)).map (·.occupancy)) })

/-- Ascending sort of an integer series, `values.sort((a, b) => a - b)`. -/
def sortAsc (l : List ℤ) : List ℤ :=
  List.insertionSort (· ≤ ·) l

/-- Comparison used by `[...filteredData].sort((a, b) => a.occupancy -
b.occupancy)`; that sort is stable, as `insertionSort` is. -/
def occLe (a b : AforoEntry) : Prop :=
  a.occupancy ≤ b.occupancy

instance : DecidableRel occLe := fun x y => Int.decLe x.occupancy y.occupancy

instance : IsTotal AforoEntry occLe := ⟨fun x y => le_total x.occupancy y.occupancy⟩

instance : IsTrans AforoEntry occLe :=
  ⟨fun x _ _ hxy hyz => le_trans (a := x.occupancy) hxy hyz⟩

/-- Stable ascending sort of profile points by occupancy. -/
def sortByOcc (l : List AforoEntry) : List AforoEntry :=
  List.insertionSort occLe l

/-- Integer square root by counting, kernel-reducible (theorem
`isqrt_eq_sqrt` below identifies it with `Nat.sqrt`). -/
def isqrt (n : ℕ) : ℕ :=
  (List.range (n + 1)).countP (fun k => decide ((k + 1) * (k + 1) ≤ n))

/-- Integer `Math.round(Math.sqrt(s / n))` for natural `s`, `n`: the real
square root of `s / n` rounded half up (theorem `roundSqrtNat_eq_round`
below proves this reading). -/
def roundSqrtNat (s n : ℕ) : ℕ :=
  (isqrt (4 * s * n) / n + 1) / 2

/-- Decimal rendering of an integer, as a JavaScript template literal
interpolates it. -/
def intStr (n : ℤ) : List Char :=
  (toString n).data

/-- Result of `localStats` (App.tsx lines 131-139). -/
structure LocalStats where
  mean : ℤ
  median : ℤ
  p25 : ℤ
  stdDev : ℤ
  max : ℤ
  min : ℤ
  golden : List Char
  deriving DecidableEq, Repr

/-- Component of `localStats`: `values`, the occupancy series of the
profile sorted ascending (App.tsx line 117). -/
def profileValues (profile : List AforoEntry) : List ℤ :=
  sortAsc (profile.map (·.occupancy))

/-- Component of `localStats`: `meanValue = Math.round(sum / length)`
(App.tsx line 118). -/
def meanOf (profile : List AforoEntry) : ℤ :=
  roundIntDiv (profileValues profile).sum (profileValues profile).length

/-- Component of `localStats`: the numerator of the population variance,
`squareDiffs.reduce((a, b) => a + b, 0)` against the rounded mean
(App.tsx lines 122-123). -/
def sqDiffSumOf (profile : List AforoEntry) : ℕ :=
  (((profileValues profile).map (fun v => (v - meanOf profile) ^ 2)).sum).toNat

/-- Component of `localStats`: `Math.round(stdDevValue)`
(App.tsx lines 123 and 135). -/
def stdDevOf (profile : List AforoEntry) : ℤ :=
  (roundSqrtNat (sqDiffSumOf profile) (profileValues profile).length : ℕ)

/-- Component of `localStats`: `bestHour = sortedByOcc[0]?.hour || 14`
(App.tsx line 126) — note the fallback to 14 when the minimum point's hour
is the falsy 0. -/
def bestHourOf (profile : List AforoEntry) : ℤ :=
  match (sortByOcc profile).head? with
  | some p => if p.hour = 0 then 14 else p.hour
  | none => 14

/-- Component of `localStats`: `sortedByOcc[0]?.occupancy || 0`
(App.tsx line 128). -/
def minOccOf (profile : List AforoEntry) : ℤ :=
  match (sortByOcc profile).head? with
  | some p => p.occupancy
  | none => 0

/-- Component of `localStats`: `nextHour?.occupancy || 0` where `nextHour`
looks up hour `bestHour + 1` in the profile (App.tsx lines 127-128). -/
def nextOccOf (profile : List AforoEntry) : ℤ :=
  match profile.find? (fun f => f.hour == bestHourOf profile + 1) with
  | some q => q.occupancy
  | none => 0

/-- Component of `localStats`: the golden-hour string
`` `${bestHour}:${trendDir === 'up' ? '15' : '45'}` `` (App.tsx lines
128-129). -/
def goldenOf (profile : List AforoEntry) : List Char :=
  intStr (bestHourOf profile) ++
    ':' :: (if minOccOf profile < nextOccOf profile then "15".data else "45".data)

/-- Statistical summarizer plus recommendation heuristic `localStats`
(App.tsx lines 115-140), a function of the hourly profile; the named
components above are its `let` bindings. -/
def localStats (profile : List AforoEntry) : Option LocalStats :=
  if profile.isEmpty then none
  else
    some { mean := meanOf profile
           median := (profileValues profile).getD ((profileValues profile).length / 2) 0
           p25 := (profileValues profile).getD ((profileValues profile).length / 4) 0
           stdDev := stdDevOf profile
           max := (profileValues profile).getD ((profileValues profile).length - 1) 0
           min := (profileValues profile).getD 0 0
           golden := goldenOf profile }

/-- Stability score `stabilityPercentage` (App.tsx lines 142-145). -/
def stabilityPercentage (ls : Option LocalStats) : ℤ :=
  match ls with
  | none => 0
  | some s => max 0 (min 100 (100 - s.stdDev * 2))

/-- JSON value, the result type of the ECMAScript `JSON.parse` builtin. -/
inductive JsonValue where
  | null : JsonValue
  | bool (b : Bool) : JsonValue
  | num (q : ℚ) : JsonValue
  | str (s : List Char) : JsonValue
  | arr (elems : List JsonValue) : JsonValue
  | obj (fields : List (List Char × JsonValue)) : JsonValue
  deriving Repr

/-- JSON whitespace. -/
def jsonWs (c : Char) : Bool :=
  c = ' ' ∨ c = '\t' ∨ c = '\n' ∨ c = '\r'

/-- Body of a JSON string after the opening quote: the characters up to the
closing quote (escape sequences are outside the modelled grammar). -/
def jsonStringRest (cs : List Char) : Option (List Char × List Char) :=
  match cs with
  | [] => none
  | '"' :: rest => some ([], rest)
  | c :: rest =>
    match jsonStringRest rest with
    | some (s, r) => if c = '\\' then none else some (c :: s, r)
    | none => none

/-- JSON number at the front of the input: optional minus, integer part,
optional fraction (exponents are outside the modelled grammar). -/
def jsonNumber (cs : List Char) : Option (ℚ × List Char) :=
  let signRest : ℤ × List Char :=
    match cs with
    | '-' :: r => (-1, r)
    | r => (1, r)
  let intPart := signRest.2.takeWhile Char.isDigit
  if intPart.isEmpty then none
  else
    let afterInt := signRest.2.drop intPart.length
    match afterInt with
    | '.' :: r =>
      let fracPart := r.takeWhile Char.isDigit
      if fracPart.isEmpty then none
      else
        some (mkRat (signRest.1 * (digitsToNat intPart * 10 ^ fracPart.length +
                digitsToNat fracPart : ℕ)) (10 ^ fracPart.length),
              r.drop fracPart.length)
    | r => some ((signRest.1 * (digitsToNat intPart : ℤ) : ℤ), r)

mutual

/-- Recursive-descent JSON value at the front of the input (fuel-indexed,
modelling the ECMAScript `JSON.parse` grammar on values without string
escapes and exponents). -/
def jsonValue : ℕ → List Char → Option (JsonValue × List Char)
  | 0, _ => none
  | fuel + 1, input =>
    let cs := input.dropWhile jsonWs
    match cs with
    | 'n' :: 'u' :: 'l' :: 'l' :: rest => some (.null, rest)
    | 't' :: 'r' :: 'u' :: 'e' :: rest => some (.bool true, rest)
    | 'f' :: 'a' :: 'l' :: 's' :: 'e' :: rest => some (.bool false, rest)
    | '"' :: rest =>
      match jsonStringRest rest with
      | some (s, r) => some (.str s, r)
      | none => none
    | '[' :: rest =>
      (match (rest.dropWhile jsonWs) with
        | ']' :: r => some (.arr [], r)
        | _ =>
          match jsonElems fuel rest with
          | some (es, r) => some (.arr es, r)
          | none => none)
    | '\x7b' :: rest =>
      (match (rest.dropWhile jsonWs) with
        | '\x7d' :: r => some (.obj [], r)
        | _ =>
          match jsonMembers fuel rest with
          | some (ms, r) => some (.obj ms, r)
          | none => none)
    | _ =>
      match jsonNumber cs with
      | some (q, r) => some (.num q, r)
      | none => none

/-- Comma-separated array elements, then the closing bracket. -/
def jsonElems : ℕ → List Char → Option (List JsonValue × List Char)
  | 0, _ => none
  | fuel + 1, input =>
    match jsonValue fuel input with
    | some (v, rest) =>
      (match rest.dropWhile jsonWs with
        | ',' :: r =>
          (match jsonElems fuel r with
            | some (vs, r') => some (v :: vs, r')
            | none => none)
        | ']' :: r => some ([v], r)
        | _ => none)
    | none => none

/-- Comma-separated object members, then the closing brace. -/
def jsonMembers : ℕ → List Char → Option (List (List Char × JsonValue) × List Char)
  | 0, _ => none
  | fuel + 1, input =>
    match (input.dropWhile jsonWs) with
    | '"' :: rest =>
      (match jsonStringRest rest with
        | some (k, r1) =>
          (match r1.dropWhile jsonWs with
            | ':' :: r2 =>
              (match jsonValue fuel r2 with
                | some (v, r3) =>
                  (match r3.dropWhile jsonWs with
                    | ',' :: r4 =>
                      (match jsonMembers fuel r4 with
                        | some (ms, r5) => some ((k, v) :: ms, r5)
                        | none => none)
                    | '\x7d' :: r4 => some ([(k, v)], r4)
                    | _ => none)
                | none => none)
            | _ => none)
        | none => none)
    | _ => none

end

/-- Model of `JSON.parse`: the whole text must be one JSON value framed by
whitespace; anything else throws, modelled as `none`. -/
def jsonParse (text : List Char) : Option JsonValue :=
  match jsonValue (text.length + 1) text with
  | some (v, rest) => if (rest.dropWhile jsonWs).isEmpty then some v else none
  | none => none

/-- Response handling of `analyzeGymData` (geminiService.ts lines 66-73):
`response.text` may be absent or empty (`!text` throws), otherwise the text
is handed to `JSON.parse` and the parsed value is returned as-is; only a
thrown error is turned into the hard failure string. -/
def analyzeGymDataResponse (text : Option (List Char)) :
    Except (List Char) JsonValue :=
  match text with
  | none => .error "Invalid AI response format".data
  | some t =>
    if t.isEmpty then .error "Invalid AI response format".data
    else
      match jsonParse t with
      | some v => .ok v
      | none => .error "Invalid AI response format".data

/-- Field lookup in a JSON object. -/
def jsonGet (v : JsonValue) (key : List Char) : Option JsonValue :=
  match v with
  | .obj fields =>
    match fields.find? (fun f => f.1 = key) with
    | some f => some f.2
    | none => none
  | _ => none

/-- True when the value is a JSON string. -/
def isJsonStr : Option JsonValue → Bool
  | some (.str _) => true
  | _ => false

/-- True when the value is a JSON number. -/
def isJsonNum : Option JsonValue → Bool
  | some (.num _) => true
  | _ => false

/-- Whether a JSON value conforms to the `responseSchema` the source
declares for the AI call: the required fields `recommendation`,
`goldenHour`, `analysis` (strings) and `statistics` with its required
numeric and string members. -/
def conformsToSchema (v : JsonValue) : Bool :=
  isJsonStr (jsonGet v "recommendation".data) &&
  isJsonStr (jsonGet v "goldenHour".data) &&
  isJsonStr (jsonGet v "analysis".data) &&
  match jsonGet v "statistics".data with
  | some stats =>
    isJsonNum (jsonGet stats "mean".data) &&
    isJsonNum (jsonGet stats "median".data) &&
    isJsonNum (jsonGet stats "percentile25".data) &&
    isJsonNum (jsonGet stats "stdDev".data) &&
    isJsonNum (jsonGet stats "max".data) &&
    isJsonNum (jsonGet stats "min".data) &&
    isJsonStr (jsonGet stats "bestHour".data) &&
    isJsonStr (jsonGet stats "trend".data)
  | none => false

/-- Specification-side reading of the delimiter rule, following the spec's
words: whichever of comma and semicolon first appears in the header line. -/
def firstDelim (header : List Char) : Option Char :=
  header.find? (fun c => c = ',' ∨ c = ';')

/-- Specification-side selector for the profile point the heuristic starts
from: the first point whose occupancy is minimal. -/
def specMinPoint (profile : List AforoEntry) : Option AforoEntry :=
  profile.find? (fun e => profile.all (fun q => e.occupancy ≤ q.occupancy))

/-- Join lines with bare line feeds. -/
def joinLines : List (List Char) → List Char
  | [] => []
  | [l] => l
  | l :: ls => l ++ '\n' :: joinLines ls

/-- Join lines with carriage-return line-feed pairs. -/
def joinLinesCRLF : List (List Char) → List Char
  | [] => []
  | [l] => l
  | l :: ls => l ++ '\r' :: '\n' :: joinLinesCRLF ls

/-- Raw text whose single data row carries occupancy 500 at hour 3. -/
def exOutOfRangeText : List Char :=
  "fecha,hora,aforo\n01/01/24,03:00,500".data

/-- The entry `parseCSV` retains for `exOutOfRangeText` (2024-01-01 was a
Monday; the timestamp is minute 28401300 of the epoch). -/
def exOutOfRangeEntry : AforoEntry :=
  { timestamp := 28401300, occupancy := 500, dayOfWeek := "Lunes".data, hour := 3 }

/-- Raw text whose header contains a comma before a semicolon. -/
def exMixedHeaderText : List Char :=
  "a,b;c\n1/1/24,10:00,50".data

/-- Profile with three points carrying the series 10, 20, 30. -/
def exProfile3 : List AforoEntry :=
  [ { timestamp := 0, occupancy := 10, dayOfWeek := "lunes".data, hour := 6 },
    { timestamp := 0, occupancy := 20, dayOfWeek := "lunes".data, hour := 7 },
    { timestamp := 0, occupancy := 30, dayOfWeek := "lunes".data, hour := 8 } ]

/-- Profile with four points carrying the series 10, 20, 30, 40. -/
def exProfile4 : List AforoEntry :=
  exProfile3 ++ [ { timestamp := 0, occupancy := 40, dayOfWeek := "lunes".data, hour := 9 } ]

/-- Profile whose minimum-occupancy point sits at hour 0, with a strictly
busier hour 1 next to it. -/
def exMidnightProfile : List AforoEntry :=
  [ { timestamp := 0, occupancy := 10, dayOfWeek := "lunes".data, hour := 0 },
    { timestamp := 0, occupancy := 50, dayOfWeek := "lunes".data, hour := 1 } ]

/-- The minimum point of `exMidnightProfile`. -/
def exMidnightMin : AforoEntry :=
  { timestamp := 0, occupancy := 10, dayOfWeek := "lunes".data, hour := 0 }

/-- Profile with a single point. -/
def exSinglePoint : List AforoEntry :=
  [ { timestamp := 0, occupancy := 30, dayOfWeek := "lunes".data, hour := 7 } ]

/-- Rounding `(a : ℚ) / d` half up is the Euclidean division
`(2a + d) / (2d)`. -/
theorem round_intCast_div_natCast (a : ℤ) (d : ℕ) (hd : d ≠ 0) :
    round ((a : ℚ) / (d : ℚ)) = (2 * a + d) / (2 * (d : ℤ)) := by
  rw [round_eq]
  have hd0 : (d : ℚ) ≠ 0 := Nat.cast_ne_zero.mpr hd
  have key : (a : ℚ) / (d : ℚ) + 1 / 2 = ((2 * a + (d : ℤ) : ℤ) : ℚ) / ((2 * d : ℕ) : ℚ) := by
    push_cast
    field_simp
    ring
  rw [key, Rat.floor_intCast_div_natCast]
  norm_cast

/-- The executable `roundIntDiv` is half-up rounding of the exact mean. -/
theorem roundIntDiv_eq_round (a : ℤ) (n : ℕ) (hn : n ≠ 0) :
    roundIntDiv a n = round ((a : ℚ) / (n : ℚ)) :=
  (round_intCast_div_natCast a n hn).symm

/-- The executable `roundRat` is Mathlib's half-up `round`. -/
theorem roundRat_eq_round (q : ℚ) : roundRat q = round q := by
  have h := round_intCast_div_natCast q.num q.den q.den_nz
  rw [Rat.num_div_den q] at h
  rw [roundRat, ← h]

/-- Counting the elements of `range N` below `s` gives `min s N`. -/
theorem countP_range_lt (s N : ℕ) :
    (List.range N).countP (fun k => decide (k < s)) = min s N := by
  induction N with
  | zero => simp
  | succ N ih =>
    rw [List.range_succ, List.countP_append, ih, List.countP_cons, List.countP_nil]
    simp only [decide_eq_true_eq]
    by_cases h : N < s
    · rw [if_pos h]
      omega
    · rw [if_neg h]
      omega

/-- The counting square root agrees with `Nat.sqrt`. -/
theorem isqrt_eq_sqrt (n : ℕ) : isqrt n = Nat.sqrt n := by
  unfold isqrt
  have hcong : ∀ k ∈ List.range (n + 1),
      (decide ((k + 1) * (k + 1) ≤ n) = true ↔ decide (k < Nat.sqrt n) = true) := by
    intro k _
    simp only [decide_eq_true_eq]
    rw [← Nat.le_sqrt]
    omega
  rw [List.countP_congr hcong, countP_range_lt]
  exact min_eq_left (le_trans (Nat.sqrt_le_self n) (Nat.le_succ n))

/-- The executable `roundSqrtNat s n` is the real square root of `s / n`
rounded half up. -/
theorem roundSqrtNat_eq_round (s n : ℕ) (hn : 0 < n) :
    (roundSqrtNat s n : ℤ) = round (Real.sqrt ((s : ℝ) / (n : ℝ))) := by
  have hnpos : (0 : ℝ) < n := Nat.cast_pos.mpr hn
  set x := Real.sqrt ((s : ℝ) / (n : ℝ)) with hxdef
  have hx0 : 0 ≤ x := Real.sqrt_nonneg _
  have h2x : 2 * x = Real.sqrt ((4 * s * n : ℕ) : ℝ) / (n : ℝ) := by
    have h4 : ((4 * s * n : ℕ) : ℝ) = (2 * (n : ℝ)) ^ 2 * ((s : ℝ) / (n : ℝ)) := by
      push_cast
      field_simp
      ring
    rw [h4, Real.sqrt_mul (by positivity), Real.sqrt_sq (by positivity), hxdef]
    field_simp
    ring
  have hfloor : ((⌊x + 1 / 2⌋₊ : ℕ) : ℤ) = ⌊x + 1 / 2⌋ :=
    Int.natCast_floor_eq_floor (by positivity)
  rw [round_eq, ← hfloor]
  have key : ⌊x + 1 / 2⌋₊ = (Nat.sqrt (4 * s * n) / n + 1) / 2 := by
    have e1 : x + 1 / 2 = (2 * x + 1) / ((2 : ℕ) : ℝ) := by
      push_cast
      ring
    rw [e1, Nat.floor_div_nat, Nat.floor_add_one (by positivity), h2x]
    have e2 : Real.sqrt ((4 * s * n : ℕ) : ℝ) / (n : ℝ) =
        Real.sqrt ((4 * s * n : ℕ) : ℝ) / ((n : ℕ) : ℝ) := by
      norm_cast
    rw [e2, Nat.floor_div_nat, Real.nat_floor_real_sqrt_eq_nat_sqrt]
  rw [key, roundSqrtNat, isqrt_eq_sqrt]

/-- C7: the stability score equals `max 0 (min 100 (100 − 2·stdDev))` of the
summary's rounded standard deviation, always lies in `[0, 100]`, and is
antitone in `stdDev`: a summary with smaller `stdDev` gets a stability at
least as high. -/
theorem c7_stability_formula_bounds_antitone :
    (∀ s : LocalStats,
        stabilityPercentage (some s) = max 0 (min 100 (100 - 2 * s.stdDev))) ∧
    (∀ ls : Option LocalStats,
        0 ≤ stabilityPercentage ls ∧ stabilityPercentage ls ≤ 100) ∧
    (∀ s t : LocalStats, s.stdDev ≤ t.stdDev →
        stabilityPercentage (some t) ≤ stabilityPercentage (some s)) := by
  refine ⟨fun s => by simp [stabilityPercentage, Int.mul_comm], fun ls => ?_, fun s t h => ?_⟩
  · cases ls with
    | none => exact ⟨le_refl 0, by norm_num [stabilityPercentage]⟩
    | some s =>
      refine ⟨le_max_left 0 _, ?_⟩
      simp only [stabilityPercentage]
      exact max_le (by norm_num) (min_le_left _ _)
  · simp only [stabilityPercentage]
    exact max_le_max (le_refl 0) (min_le_min (le_refl 100) (by omega))

/-- C2 counterexample: the raw text `exOutOfRangeText` has a row with
occupancy 500 at hour 3; the normalizer retains it, so the retained set is
neither bounded by 100 nor restricted to the 7:10–22:50 operating window. -/
theorem c2_counterexample_occupancy_window :
    (parseCSV exOutOfRangeText).map (fun e => (e.occupancy, e.hour)) = [(500, 3)] ∧
    ¬ ((0 : ℤ) ≤ 500 ∧ (500 : ℤ) ≤ 100) ∧
    ¬ ((7 : ℤ) ≤ 3 ∧ (3 : ℤ) ≤ 22) := by
  exact ⟨by decide, by decide, by decide⟩

/-- C2 (amended): every entry the normalizer retains has integer occupancy
strictly above the noise floor 2; the source applies no upper bound of 100
and no operating-window filter, so occupancy 500 at hour 3 is retained (see
the counterexample). -/
theorem c2_amended_noise_floor_only (text : List Char) (e : AforoEntry)
    (he : e ∈ parseCSV text) : 2 < e.occupancy := by
  unfold parseCSV at he
  rcases hl : csvLines text with _ | ⟨header, rows⟩ <;> rw [hl] at he
  · simp at he
  · by_cases hr : rows.isEmpty
    · simp [hr] at he
    · simp only [hr, if_false] at he
      rcases List.mem_filterMap.mp he with ⟨o, _, ho⟩
      cases o with
      | none => simp [keepValid] at ho
      | some a =>
        simp only [keepValid] at ho
        by_cases h2 : 2 < a.occupancy
        · rw [if_pos h2] at ho
          cases ho
          exact h2
        · rw [if_neg h2] at ho
          cases ho

/-- Witness for C2 (amended) at the concrete raw text `exOutOfRangeText`. -/
theorem c2_amended_noise_floor_only_witness : 2 < exOutOfRangeEntry.occupancy :=
  c2_amended_noise_floor_only exOutOfRangeText exOutOfRangeEntry (by decide)

/-- C8 counterexample: the response text consisting of the empty JSON
object decodes without error and is returned as-is, although it conforms to
no part of the declared result schema — the call does not fail and a
partially-populated (here: fully empty) result reaches the caller. -/
theorem c8_counterexample_no_schema_validation :
    analyzeGymDataResponse (some ['\x7b', '\x7d']) = .ok (JsonValue.obj []) ∧
    conformsToSchema (JsonValue.obj []) = false :=
  ⟨rfl, rfl⟩

/-- C8 (amended): a missing or empty response text, or text that is not
syntactically valid JSON, makes the call fail as a hard error; but any
syntactically valid JSON value is returned to the caller as-is, with no
validation against the result schema — in particular the empty object,
which lacks every required field (see the counterexample). -/
theorem c8_amended_syntax_only_validation :
    analyzeGymDataResponse none = .error "Invalid AI response format".data ∧
    analyzeGymDataResponse (some []) = .error "Invalid AI response format".data ∧
    (∀ t : List Char, t ≠ [] → jsonParse t = none →
        analyzeGymDataResponse (some t) = .error "Invalid AI response format".data) ∧
    (∀ (t : List Char) (v : JsonValue), t ≠ [] → jsonParse t = some v →
        analyzeGymDataResponse (some t) = .ok v) := by
  refine ⟨rfl, rfl, fun t ht hp => ?_, fun t v ht hp => ?_⟩
  · simp [analyzeGymDataResponse, List.isEmpty_iff, ht, hp]
  · simp [analyzeGymDataResponse, List.isEmpty_iff, ht, hp]

/-- C9 counterexample: in the header `a,b;c` the comma appears first, yet
the source picks the semicolon (it tests only for the presence of `;`);
with that delimiter the comma-separated data row splits into a single
column and the batch parses to nothing, while the row itself is a valid
comma-delimited record. -/
theorem c9_counterexample_delimiter_not_first :
    delimiterOf "a,b;c".data = ';' ∧
    firstDelim "a,b;c".data = some ',' ∧
    (';' : Char) ≠ ',' ∧
    parseCSV exMixedHeaderText = [] ∧
    (keepValid (parseLine ',' "1/1/24,10:00,50".data)).map (fun e => e.occupancy) =
      some 50 := by
  exact ⟨by decide, by decide, by decide, by decide, by decide⟩

/-- Unfolding of `localStats` on a nonempty profile. -/
theorem localStats_of_ne_nil (profile : List AforoEntry) (h : profile ≠ []) :
    localStats profile =
      some { mean := meanOf profile
             median := (profileValues profile).getD ((profileValues profile).length / 2) 0
             p25 := (profileValues profile).getD ((profileValues profile).length / 4) 0
             stdDev := stdDevOf profile
             max := (profileValues profile).getD ((profileValues profile).length - 1) 0
             min := (profileValues profile).getD 0 0
             golden := goldenOf profile } := by
  rw [localStats, if_neg]
  simpa using h

/-- The mean of a one-point profile is that point's occupancy. -/
theorem meanOf_singleton (p : AforoEntry) : meanOf [p] = p.occupancy := by
  show roundIntDiv (p.occupancy + 0) 1 = p.occupancy
  unfold roundIntDiv
  omega

/-- The variance numerator of a one-point profile is zero. -/
theorem sqDiffSumOf_singleton (p : AforoEntry) : sqDiffSumOf [p] = 0 := by
  unfold sqDiffSumOf
  rw [show profileValues [p] = [p.occupancy] from rfl, meanOf_singleton]
  simp

/-- The rounded standard deviation of a one-point profile is zero. -/
theorem stdDevOf_singleton (p : AforoEntry) : stdDevOf [p] = 0 := by
  unfold stdDevOf
  rw [sqDiffSumOf_singleton, show (profileValues [p]).length = 1 from rfl]
  decide

/-- The next-hour occupancy of a one-point profile is the fallback 0. -/
theorem nextOccOf_singleton (p : AforoEntry) : nextOccOf [p] = 0 := by
  unfold nextOccOf
  have hb : bestHourOf [p] = if p.hour = 0 then 14 else p.hour := rfl
  rw [hb]
  by_cases h0 : p.hour = 0
  · simp [List.find?, h0]
  · simp only [if_neg h0, List.find?]
    have hne : (p.hour == p.hour + 1) = false := by
      rw [beq_eq_false_iff_ne]
      omega
    rw [hne]

/-- The golden hour of a one-point profile with nonnegative occupancy:
trend falls back to `down`, minute 45, hour taken from the point (or the
default 14 at hour 0). -/
theorem goldenOf_singleton (p : AforoEntry) (hp : 0 ≤ p.occupancy) :
    goldenOf [p] = intStr (if p.hour = 0 then 14 else p.hour) ++ ':' :: "45".data := by
  unfold goldenOf
  rw [nextOccOf_singleton, show minOccOf [p] = p.occupancy from rfl,
    show bestHourOf [p] = if p.hour = 0 then 14 else p.hour from rfl,
    if_neg (by omega : ¬ p.occupancy < 0)]

/-- C6 counterexample: a profile with a single point yields a stability
score of 100, not the claimed neutral 0 (`stdDev` is 0, so
`100 − 2·stdDev = 100`), and its golden hour is built from the point's own
hour rather than a neutral default. -/
theorem c6_counterexample_single_point :
    stabilityPercentage (localStats exSinglePoint) = 100 ∧
    (localStats exSinglePoint).map (fun s => s.golden) = some "7:45".data ∧
    (100 : ℤ) ≠ 0 := by
  refine ⟨by decide, by decide, by decide⟩

/-- C6 (amended): with zero surviving entries for the selected day the
pipeline returns the empty profile, a `none` summary and stability 0
without faulting; a 0-point profile likewise yields `none` and 0; a
1-point profile still returns a value without faulting, but that value has
stability 100 (its `stdDev` is 0) and a golden hour built from the point's
hour (or the default 14 at hour 0), not a neutral default time with
stability 0. -/
theorem c6_amended_degenerate_behaviour :
    (∀ (rawData : List AforoEntry) (day : List Char),
        rawData.filter (matchesDay day) = [] →
          filteredData rawData day = [] ∧
          localStats (filteredData rawData day) = none ∧
          stabilityPercentage (localStats (filteredData rawData day)) = 0) ∧
    (localStats [] = none ∧ stabilityPercentage (localStats []) = 0) ∧
    (∀ p : AforoEntry, 0 ≤ p.occupancy →
        ∃ s, localStats [p] = some s ∧ s.stdDev = 0 ∧
          stabilityPercentage (localStats [p]) = 100 ∧
          s.golden = intStr (if p.hour = 0 then 14 else p.hour) ++ ':' :: "45".data) := by
  refine ⟨fun rawData day h => ?_, ⟨rfl, rfl⟩, fun p hp => ?_⟩
  · have hfd : filteredData rawData day = [] := by
      simp [filteredData, h]
    exact ⟨hfd, by rw [hfd]; rfl, by rw [hfd]; rfl⟩
  · have hs := localStats_of_ne_nil [p] (by simp)
    refine ⟨_, hs, ?_, ?_, ?_⟩
    · exact stdDevOf_singleton p
    · rw [hs]
      show max 0 (min 100 (100 - stdDevOf [p] * 2)) = 100
      rw [stdDevOf_singleton]
      decide
    · show goldenOf [p] = _
      exact goldenOf_singleton p hp

/-- The sorted occupancy series is a permutation of the profile's series. -/
theorem profileValues_perm (profile : List AforoEntry) :
    (profileValues profile).Perm (profile.map (fun e => e.occupancy)) :=
  List.perm_insertionSort _ _

/-- The sorted occupancy series has the profile's length. -/
theorem profileValues_length (profile : List AforoEntry) :
    (profileValues profile).length = profile.length := by
  rw [(profileValues_perm profile).length_eq, List.length_map]

/-- Casting an integer sum of squared deviations to the reals. -/
theorem castSumSq (l : List ℤ) (m : ℤ) :
    (((l.map (fun v => (v - m) ^ 2)).sum : ℤ) : ℝ) =
      (l.map (fun (v : ℤ) => ((v : ℝ) - (m : ℝ)) ^ 2)).sum := by
  induction l with
  | nil => simp
  | cons a l ih =>
    simp only [List.map_cons, List.sum_cons]
    rw [Int.cast_add, ih]
    congr 1
    push_cast
    ring

/-- The summarizer's mean is the half-up rounded arithmetic mean of the
series. -/
theorem meanOf_eq_round (profile : List AforoEntry) (h : profile ≠ []) :
    meanOf profile =
      round ((((profile.map (fun e => e.occupancy)).sum : ℤ) : ℚ) /
        ((profile.map (fun e => e.occupancy)).length : ℚ)) := by
  unfold meanOf
  rw [roundIntDiv_eq_round _ _ (by
    rw [profileValues_length]
    exact (List.length_pos.mpr h).ne')]
  rw [(profileValues_perm profile).sum_eq, profileValues_length, List.length_map]

/-- The summarizer's rounded standard deviation is the half-up rounded real
square root of the population variance (divide by `n`) computed against the
rounded mean. -/
theorem stdDevOf_eq_round (profile : List AforoEntry) (h : profile ≠ []) :
    stdDevOf profile =
      round (Real.sqrt
        (((profile.map (fun e => e.occupancy)).map
            (fun (v : ℤ) => ((v : ℝ) - (meanOf profile : ℝ)) ^ 2)).sum /
          ((profile.map (fun e => e.occupancy)).length : ℝ))) := by
  have hn : 0 < (profileValues profile).length := by
    rw [profileValues_length]
    exact List.length_pos.mpr h
  unfold stdDevOf
  rw [roundSqrtNat_eq_round _ _ hn]
  rw [profileValues_length, List.length_map]
  congr 3
  have hpos : 0 ≤ ((profileValues profile).map
      (fun v => (v - meanOf profile) ^ 2)).sum := by
    apply List.sum_nonneg
    intro x hx
    obtain ⟨v, _, rfl⟩ := List.mem_map.mp hx
    positivity
  have hcast : ((sqDiffSumOf profile : ℕ) : ℝ) =
      ((((profileValues profile).map (fun v => (v - meanOf profile) ^ 2)).sum : ℤ) : ℝ) := by
    rw [show ((sqDiffSumOf profile : ℕ) : ℝ) = ((sqDiffSumOf profile : ℤ) : ℝ) from
      (Int.cast_natCast _).symm]
    unfold sqDiffSumOf
    rw [Int.toNat_of_nonneg hpos]
  rw [hcast, castSumSq]
  exact ((profileValues_perm profile).map
    (fun (v : ℤ) => ((v : ℝ) - (meanOf profile : ℝ)) ^ 2)).sum_eq

set_option maxRecDepth 40000 in
/-- C1: on every non-empty series of hourly-profile occupancy values the
summarizer returns the half-up rounded arithmetic mean, the sorted element
at index `⌊n/2⌋` as median (lower middle, not averaged midpoint), the
sorted element at index `⌊n·0.25⌋` as 25th percentile, and the rounded
square root of the population variance (divide by `n`) taken against the
rounded mean as `stdDev`; on the series 10, 20, 30 this gives
(20, 20, 10, 8) and on 10, 20, 30, 40 the median 30. -/
theorem c1_statistical_summarizer (p0 : AforoEntry) (rest : List AforoEntry) :
    (∃ s, localStats (p0 :: rest) = some s ∧
      s.mean = round (((((p0 :: rest).map (fun e => e.occupancy)).sum : ℤ) : ℚ) /
        (((p0 :: rest).map (fun e => e.occupancy)).length : ℚ)) ∧
      s.median = (sortAsc ((p0 :: rest).map (fun e => e.occupancy))).getD
        (((p0 :: rest).map (fun e => e.occupancy)).length / 2) 0 ∧
      s.p25 = (sortAsc ((p0 :: rest).map (fun e => e.occupancy))).getD
        (((p0 :: rest).map (fun e => e.occupancy)).length / 4) 0 ∧
      s.stdDev = round (Real.sqrt
        ((((p0 :: rest).map (fun e => e.occupancy)).map
            (fun (v : ℤ) => ((v : ℝ) - (s.mean : ℝ)) ^ 2)).sum /
          (((p0 :: rest).map (fun e => e.occupancy)).length : ℝ)))) ∧
    (localStats exProfile3).map (fun s => (s.mean, s.median, s.p25, s.stdDev)) =
      some (20, 20, 10, 8) ∧
    (localStats exProfile4).map (fun s => s.median) = some 30 := by
  refine ⟨?_, by decide, by decide⟩
  have hne : (p0 :: rest) ≠ [] := List.cons_ne_nil p0 rest
  refine ⟨_, localStats_of_ne_nil _ hne, ?_, ?_, ?_, ?_⟩
  · exact meanOf_eq_round _ hne
  · show (profileValues (p0 :: rest)).getD _ 0 = _
    rw [profileValues_length, List.length_map]
    exact rfl
  · show (profileValues (p0 :: rest)).getD _ 0 = _
    rw [profileValues_length, List.length_map]
    exact rfl
  · show stdDevOf (p0 :: rest) = _
    rw [stdDevOf_eq_round _ hne]

/-- The hours of the aggregated profile are the ascending sort of the
distinct hours observed on the selected day. -/
theorem filteredData_hours (rawData : List AforoEntry) (day : List Char) :
    (filteredData rawData day).map (fun e => e.hour) =
      List.insertionSort (· ≤ ·)
        ((rawData.filter (matchesDay day)).map (fun e => e.hour)).dedup := by
  simp only [filteredData, List.map_map]
  exact List.map_id _

/-- C4: the aggregator keeps exactly the entries matching the target day
case-insensitively, emits one point per distinct observed hour carrying the
rounded integer mean of that hour's occupancies, produces no point for
unobserved hours, and its output is sorted strictly ascending by hour with
no duplicates. -/
theorem c4_occupancy_aggregator (rawData : List AforoEntry) (day : List Char) :
    ((filteredData rawData day).map (fun e => e.hour)).Pairwise (· < ·) ∧
    (∀ h : ℤ, h ∈ (filteredData rawData day).map (fun e => e.hour) ↔
      ∃ e ∈ rawData, matchesDay day e = true ∧ e.hour = h) ∧
    (∀ p ∈ filteredData rawData day,
      p.dayOfWeek = day ∧
      ((rawData.filter (matchesDay day)).filter (fun e => e.hour == p.hour)) ≠ [] ∧
      p.occupancy = roundAvg (((rawData.filter (matchesDay day)).filter
        (fun e => e.hour == p.hour)).map (fun e => e.occupancy))) := by
  have hhours := filteredData_hours rawData day
  have hsorted : List.Sorted (· ≤ ·)
      (List.insertionSort (· ≤ ·)
        ((rawData.filter (matchesDay day)).map (fun e => e.hour)).dedup) :=
    List.sorted_insertionSort _ _
  have hperm := List.perm_insertionSort (α := ℤ) (· ≤ ·)
    ((rawData.filter (matchesDay day)).map (fun e => e.hour)).dedup
  have hnodup : (List.insertionSort (· ≤ ·)
      ((rawData.filter (matchesDay day)).map (fun e => e.hour)).dedup).Nodup :=
    hperm.nodup_iff.mpr (List.nodup_dedup _)
  have hmemhours : ∀ h : ℤ,
      (h ∈ List.insertionSort (· ≤ ·)
        ((rawData.filter (matchesDay day)).map (fun e => e.hour)).dedup ↔
      ∃ e ∈ rawData, matchesDay day e = true ∧ e.hour = h) := by
    intro h
    rw [hperm.mem_iff, List.mem_dedup, List.mem_map]
    constructor
    · rintro ⟨e, he, rfl⟩
      rcases List.mem_filter.mp he with ⟨he1, he2⟩
      exact ⟨e, he1, he2, rfl⟩
    · rintro ⟨e, he, hm, rfl⟩
      exact ⟨e, List.mem_filter.mpr ⟨he, hm⟩, rfl⟩
  refine ⟨?_, ?_, ?_⟩
  · rw [hhours]
    exact (hsorted.and hnodup).imp (fun hab => lt_of_le_of_ne hab.1 hab.2)
  · intro h
    rw [hhours]
    exact hmemhours h
  · intro p hp
    simp only [filteredData, List.mem_map] at hp
    obtain ⟨h, hh, rfl⟩ := hp
    refine ⟨rfl, ?_, rfl⟩
    rcases (hmemhours h).mp hh with ⟨e, he, hm, rfl⟩
    apply List.ne_nil_of_mem
    show e ∈ _
    exact List.mem_filter.mpr ⟨List.mem_filter.mpr ⟨he, hm⟩, beq_self_eq_true e.hour⟩

/-- Two predicates agreeing on a list find the same first hit. -/
theorem find?_congr_on {α : Type} (l : List α) (p q : α → Bool)
    (h : ∀ e ∈ l, p e = q e) : l.find? p = l.find? q := by
  induction l with
  | nil => rfl
  | cons a t ih =>
    simp only [List.find?]
    rw [h a (List.mem_cons_self a t)]
    cases hqa : q a
    · exact ih (fun e he => h e (List.mem_cons_of_mem a he))
    · rfl

/-- What `specMinPoint` finds is a member attaining the minimum. -/
theorem specMinPoint_spec (l : List AforoEntry) (p : AforoEntry)
    (h : specMinPoint l = some p) :
    p ∈ l ∧ ∀ q ∈ l, p.occupancy ≤ q.occupancy := by
  unfold specMinPoint at h
  refine ⟨List.mem_of_find?_eq_some h, ?_⟩
  intro q hq
  have hall := List.find?_some h
  rw [List.all_eq_true] at hall
  simpa using hall q hq

/-- The head of the stable sort by occupancy is the first point attaining
the minimum occupancy: the two selectors agree. -/
theorem head_sortByOcc (l : List AforoEntry) :
    (sortByOcc l).head? = specMinPoint l := by
  induction l with
  | nil => rfl
  | cons a t ih =>
    show (List.orderedInsert occLe a (sortByOcc t)).head? = _
    rcases hst : sortByOcc t with _ | ⟨b, rest⟩
    · have ht : t = [] := by
        have hlen := (List.perm_insertionSort occLe t).length_eq
        rw [show List.insertionSort occLe t = sortByOcc t from rfl, hst] at hlen
        exact List.length_eq_zero.mp hlen.symm
      subst ht
      show some a = specMinPoint [a]
      unfold specMinPoint
      simp
    · rw [hst] at ih
      have hmin : specMinPoint t = some b := ih.symm
      obtain ⟨hbmem, hbmin⟩ := specMinPoint_spec t b hmin
      show (List.orderedInsert occLe a (b :: rest)).head? = specMinPoint (a :: t)
      rw [List.orderedInsert]
      by_cases hab : occLe a b
      · rw [if_pos hab]
        have hpa : ((a :: t).all (fun q => a.occupancy ≤ q.occupancy)) = true := by
          rw [List.all_eq_true]
          intro q hq
          rcases List.mem_cons.mp hq with rfl | hq'
          · simp
          · simpa using le_trans hab (hbmin q hq')
        show some a = specMinPoint (a :: t)
        unfold specMinPoint
        simp only [List.find?]
        rw [hpa]
      · rw [if_neg hab]
        have hba : b.occupancy < a.occupancy := by
          unfold occLe at hab
          omega
        have hpa : ¬ ((a :: t).all (fun q => a.occupancy ≤ q.occupancy)) = true := by
          rw [List.all_eq_true]
          intro hall
          have hb := hall b (List.mem_cons_of_mem a hbmem)
          simp only [decide_eq_true_eq] at hb
          omega
        show some b = specMinPoint (a :: t)
        unfold specMinPoint
        simp only [List.find?]
        rw [Bool.eq_false_iff.mpr hpa,
          find?_congr_on t _ (fun e => t.all (fun q => decide (e.occupancy ≤ q.occupancy)))
            ?_]
        · unfold specMinPoint at hmin
          exact hmin.symm
        · intro e _
          show ((a :: t).all fun q => decide (e.occupancy ≤ q.occupancy)) =
            (t.all fun q => decide (e.occupancy ≤ q.occupancy))
          rw [List.all_cons]
          cases hpe : t.all (fun q => decide (e.occupancy ≤ q.occupancy))
          · rw [Bool.and_false]
          · rw [Bool.and_true]
            have hebo : e.occupancy ≤ b.occupancy := by
              have := List.all_eq_true.mp hpe b hbmem
              simpa using this
            exact decide_eq_true (le_trans hebo hba.le)

/-- The heuristic's base hour, expressed through the specification-side
minimum selector. -/
theorem bestHourOf_eq (profile : List AforoEntry) (p : AforoEntry)
    (hmin : specMinPoint profile = some p) :
    bestHourOf profile = if p.hour = 0 then 14 else p.hour := by
  unfold bestHourOf
  rw [show (sortByOcc profile).head? = specMinPoint profile from head_sortByOcc profile,
    hmin]

/-- The heuristic's reference occupancy is the minimum point's occupancy. -/
theorem minOccOf_eq (profile : List AforoEntry) (p : AforoEntry)
    (hmin : specMinPoint profile = some p) :
    minOccOf profile = p.occupancy := by
  unfold minOccOf
  rw [show (sortByOcc profile).head? = specMinPoint profile from head_sortByOcc profile,
    hmin]

/-- On a profile with distinct hours and a nonnegative minimum, the trend
test of the heuristic holds exactly when the profile contains the hour
after the base hour with occupancy strictly above the minimum. -/
theorem minOcc_lt_nextOcc_iff (profile : List AforoEntry) (p : AforoEntry)
    (hnodup : (profile.map (fun e => e.hour)).Nodup)
    (hmin : specMinPoint profile = some p) (hp0 : 0 ≤ p.occupancy) :
    (minOccOf profile < nextOccOf profile) ↔
      ∃ q ∈ profile, q.hour = bestHourOf profile + 1 ∧ p.occupancy < q.occupancy := by
  rw [minOccOf_eq profile p hmin]
  unfold nextOccOf
  cases hfind : profile.find? (fun f => f.hour == bestHourOf profile + 1) with
  | none =>
    simp only
    constructor
    · intro h
      omega
    · rintro ⟨q, hq, hqH, _⟩
      have hnone := List.find?_eq_none.mp hfind q hq
      rw [hqH] at hnone
      simp at hnone
  | some q0 =>
    simp only
    have hq0H : q0.hour = bestHourOf profile + 1 := by
      simpa using List.find?_some hfind
    have hq0mem := List.mem_of_find?_eq_some hfind
    constructor
    · intro h
      exact ⟨q0, hq0mem, hq0H, h⟩
    · rintro ⟨q, hq, hqH, hlt⟩
      have hqq : q = q0 :=
        List.inj_on_of_nodup_map hnodup hq hq0mem (by rw [hqH, hq0H])
      rwa [hqq] at hlt

/-- C10: when the minimum-occupancy point of a non-empty profile has hour 0
the locally computed golden-hour string is built on hour 14 (the `|| 14`
fallback treats hour 0 as absent), while for a minimum hour in 1–23 it is
built on the true minimum hour. -/
theorem c10_midnight_hour_fallback (profile : List AforoEntry) (p : AforoEntry)
    (hmin : specMinPoint profile = some p) :
    ∃ s, localStats profile = some s ∧
      (p.hour = 0 → s.golden = "14:15".data ∨ s.golden = "14:45".data) ∧
      (1 ≤ p.hour → p.hour ≤ 23 →
        s.golden = intStr p.hour ++ ':' :: "15".data ∨
        s.golden = intStr p.hour ++ ':' :: "45".data) := by
  have hne : profile ≠ [] := by
    intro h
    rw [h] at hmin
    exact Option.noConfusion hmin
  refine ⟨_, localStats_of_ne_nil _ hne, ?_, ?_⟩
  · intro h0
    show goldenOf profile = _ ∨ goldenOf profile = _
    unfold goldenOf
    rw [bestHourOf_eq profile p hmin, if_pos h0]
    by_cases hc : minOccOf profile < nextOccOf profile
    · left
      rw [if_pos hc]
      rfl
    · right
      rw [if_neg hc]
      rfl
  · intro h1 h23
    have h0 : ¬ p.hour = 0 := by omega
    show goldenOf profile = _ ∨ goldenOf profile = _
    unfold goldenOf
    rw [bestHourOf_eq profile p hmin, if_neg h0]
    by_cases hc : minOccOf profile < nextOccOf profile
    · left
      rw [if_pos hc]
    · right
      rw [if_neg hc]

/-- Witness for C10 at the concrete profile `exMidnightProfile`, whose
first minimum point `exMidnightMin` sits at hour 0. -/
theorem c10_midnight_hour_fallback_witness :
    ∃ s, localStats exMidnightProfile = some s ∧
      (exMidnightMin.hour = 0 → s.golden = "14:15".data ∨ s.golden = "14:45".data) ∧
      (1 ≤ exMidnightMin.hour → exMidnightMin.hour ≤ 23 →
        s.golden = intStr exMidnightMin.hour ++ ':' :: "15".data ∨
        s.golden = intStr exMidnightMin.hour ++ ':' :: "45".data) :=
  c10_midnight_hour_fallback exMidnightProfile exMidnightMin (by decide)

/-- C5 counterexample: in `exMidnightProfile` the minimum-occupancy point
sits at hour 0 and the profile does contain hour 1 with strictly greater
occupancy, so the claim predicts a rising trend with golden hour `0:15`;
the code produces `14:45`. -/
theorem c5_counterexample_midnight_min :
    (localStats exMidnightProfile).map (fun s => s.golden) = some "14:45".data ∧
    "14:45".data ≠ "0:15".data ∧
    specMinPoint exMidnightProfile = some exMidnightMin ∧
    exMidnightMin.hour = 0 ∧
    (∃ q ∈ exMidnightProfile,
      q.hour = exMidnightMin.hour + 1 ∧ exMidnightMin.occupancy < q.occupancy) := by
  exact ⟨by decide, by decide, by decide, by decide, by decide⟩

/-- C5 (amended): on a non-empty hourly profile (distinct hours,
nonnegative occupancies) with first minimum-occupancy point `p`, when
`p.hour ≠ 0` the heuristic behaves as claimed — golden hour `p.hour:15`
when the profile contains hour `p.hour + 1` with occupancy strictly above
the minimum, `p.hour:45` otherwise (an absent next hour counts as
occupancy 0) — but when `p.hour = 0` the base hour silently falls back
to 14 and the next-hour lookup uses hour 15, yielding `14:15`/`14:45`. -/
theorem c5_amended_golden_hour (profile : List AforoEntry) (p : AforoEntry)
    (hnodup : (profile.map (fun e => e.hour)).Nodup)
    (hocc : ∀ e ∈ profile, 0 ≤ e.occupancy)
    (hmin : specMinPoint profile = some p) :
    ∃ s, localStats profile = some s ∧
      (p.hour ≠ 0 →
        ((∃ q ∈ profile, q.hour = p.hour + 1 ∧ p.occupancy < q.occupancy) →
          s.golden = intStr p.hour ++ ':' :: "15".data) ∧
        (¬ (∃ q ∈ profile, q.hour = p.hour + 1 ∧ p.occupancy < q.occupancy) →
          s.golden = intStr p.hour ++ ':' :: "45".data)) ∧
      (p.hour = 0 →
        ((∃ q ∈ profile, q.hour = 15 ∧ p.occupancy < q.occupancy) →
          s.golden = "14:15".data) ∧
        (¬ (∃ q ∈ profile, q.hour = 15 ∧ p.occupancy < q.occupancy) →
          s.golden = "14:45".data)) := by
  have hne : profile ≠ [] := by
    intro h
    rw [h] at hmin
    exact Option.noConfusion hmin
  have hp0 : 0 ≤ p.occupancy := hocc p (specMinPoint_spec profile p hmin).1
  have htrend := minOcc_lt_nextOcc_iff profile p hnodup hmin hp0
  refine ⟨_, localStats_of_ne_nil _ hne, ?_, ?_⟩
  · intro hph
    have hbh : bestHourOf profile = p.hour := by
      rw [bestHourOf_eq profile p hmin, if_neg hph]
    rw [hbh] at htrend
    constructor
    · intro hex
      show goldenOf profile = _
      unfold goldenOf
      rw [bestHourOf_eq profile p hmin, if_neg hph, if_pos (htrend.mpr hex)]
    · intro hnex
      show goldenOf profile = _
      unfold goldenOf
      rw [bestHourOf_eq profile p hmin, if_neg hph,
        if_neg (fun hc => hnex (htrend.mp hc))]
  · intro hph
    have hbh : bestHourOf profile = 14 := by
      rw [bestHourOf_eq profile p hmin, if_pos hph]
    rw [hbh] at htrend
    norm_num at htrend
    constructor
    · intro hex
      show goldenOf profile = _
      unfold goldenOf
      rw [hbh, if_pos (htrend.mpr hex)]
      rfl
    · intro hnex
      show goldenOf profile = _
      unfold goldenOf
      rw [hbh, if_neg (fun hc => hnex (htrend.mp hc))]
      rfl

/-- Witness for C5 (amended) at the concrete profile `exProfile3`: its
first minimum point is the hour-6 point with occupancy 10, hour 7 carries
occupancy 20 > 10, so the golden hour is `6:15`. -/
theorem c5_amended_golden_hour_witness :
    ∃ s, localStats exProfile3 = some s ∧
      ((exProfile3.getD 0 exMidnightMin).hour ≠ 0 →
        ((∃ q ∈ exProfile3, q.hour = (exProfile3.getD 0 exMidnightMin).hour + 1 ∧
            (exProfile3.getD 0 exMidnightMin).occupancy < q.occupancy) →
          s.golden = intStr (exProfile3.getD 0 exMidnightMin).hour ++ ':' :: "15".data) ∧
        (¬ (∃ q ∈ exProfile3, q.hour = (exProfile3.getD 0 exMidnightMin).hour + 1 ∧
            (exProfile3.getD 0 exMidnightMin).occupancy < q.occupancy) →
          s.golden = intStr (exProfile3.getD 0 exMidnightMin).hour ++ ':' :: "45".data)) ∧
      ((exProfile3.getD 0 exMidnightMin).hour = 0 →
        ((∃ q ∈ exProfile3, q.hour = 15 ∧
            (exProfile3.getD 0 exMidnightMin).occupancy < q.occupancy) →
          s.golden = "14:15".data) ∧
        (¬ (∃ q ∈ exProfile3, q.hour = 15 ∧
            (exProfile3.getD 0 exMidnightMin).occupancy < q.occupancy) →
          s.golden = "14:45".data)) :=
  c5_amended_golden_hour exProfile3 (exProfile3.getD 0 exMidnightMin)
    (by decide) (by decide) (by decide)

/-- Splitting a list free of separators yields the list itself. -/
theorem splitPred_no_sep (p : Char → Bool) (l : List Char)
    (h : ∀ c ∈ l, p c = false) : splitPred p l = [l] := by
  induction l with
  | nil => rfl
  | cons a t ih =>
    rw [splitPred, ih (fun c hc => h c (List.mem_cons_of_mem a hc))]
    rw [h a (List.mem_cons_self a t)]
    rfl

/-- Splitting never produces the empty list of pieces. -/
theorem splitPred_ne_nil (p : Char → Bool) (l : List Char) :
    splitPred p l ≠ [] := by
  cases l with
  | nil => simp [splitPred]
  | cons a t =>
    rw [splitPred]
    rcases splitPred p t with _ | ⟨s, ss⟩
    · simp
    · by_cases h : p a <;> simp [h]

/-- Splitting peels off a separator-free chunk before a separator. -/
theorem splitPred_append (p : Char → Bool) (l rest : List Char) (c : Char)
    (hc : p c = true) (h : ∀ x ∈ l, p x = false) :
    splitPred p (l ++ c :: rest) = l :: splitPred p rest := by
  induction l with
  | nil =>
    show splitPred p (c :: rest) = [] :: splitPred p rest
    rw [splitPred]
    rcases hs : splitPred p rest with _ | ⟨s, ss⟩
    · exact absurd hs (splitPred_ne_nil p rest)
    · rw [hc]
      rfl
  | cons a t ih =>
    show splitPred p (a :: (t ++ c :: rest)) = (a :: t) :: splitPred p rest
    rw [splitPred, ih (fun x hx => h x (List.mem_cons_of_mem a hx))]
    rw [h a (List.mem_cons_self a t)]
    rfl

/-- `stripCR` leaves a carriage-return-free line unchanged. -/
theorem stripCR_of_not_mem (l : List Char) (h : '\r' ∉ l) : stripCR l = l := by
  unfold stripCR
  rw [if_neg]
  intro hl
  obtain ⟨hne, heq⟩ := List.mem_getLast?_eq_getLast (Option.mem_def.mpr hl)
  exact h (heq ▸ List.getLast_mem hne)

/-- `stripCR` removes exactly one trailing carriage return. -/
theorem stripCR_concat (l : List Char) : stripCR (l ++ ['\r']) = l := by
  unfold stripCR
  rw [List.getLast?_concat, if_pos rfl, List.dropLast_concat]

/-- On well-formed lines joined by bare line feeds, `csvLines` recovers
exactly the nonblank lines. -/
theorem csvLines_joinLines (ls : List (List Char))
    (h : ∀ l ∈ ls, '\n' ∉ l ∧ '\r' ∉ l) :
    csvLines (joinLines ls) = ls.filter (fun l => !(jsTrim l).isEmpty) := by
  induction ls with
  | nil => rfl
  | cons l ls' ih =>
    cases ls' with
    | nil =>
      show csvLines l = [l].filter _
      unfold csvLines
      rw [show splitChar '\n' l = [l] from
        splitPred_no_sep _ l (fun c hc => by
          have := (h l (List.mem_cons_self l [])).1
          show decide (c = '\n') = false
          exact decide_eq_false (fun he => this (he ▸ hc))),
        List.map_cons, List.map_nil,
        stripCR_of_not_mem l (h l (List.mem_cons_self l [])).2]
    | cons l2 ls'' =>
      have hl := h l (List.mem_cons_self l _)
      have hrest : ∀ x ∈ l2 :: ls'', '\n' ∉ x ∧ '\r' ∉ x :=
        fun x hx => h x (List.mem_cons_of_mem l hx)
      show csvLines (l ++ '\n' :: joinLines (l2 :: ls'')) = _
      unfold csvLines
      rw [show splitChar '\n' (l ++ '\n' :: joinLines (l2 :: ls'')) =
          l :: splitChar '\n' (joinLines (l2 :: ls'')) from
        splitPred_append _ l _ '\n' (by decide)
          (fun c hc => by
            show decide (c = '\n') = false
            exact decide_eq_false (fun he => hl.1 (he ▸ hc))),
        List.map_cons, stripCR_of_not_mem l hl.2,
        List.filter_cons, List.filter_cons,
        show ((splitChar '\n' (joinLines (l2 :: ls''))).map stripCR).filter
            (fun x => !(jsTrim x).isEmpty) =
          (l2 :: ls'').filter (fun x => !(jsTrim x).isEmpty) from ih hrest]

/-- On well-formed lines joined by CRLF pairs, `csvLines` recovers exactly
the same nonblank lines: the two line endings are interchangeable. -/
theorem csvLines_joinLinesCRLF (ls : List (List Char))
    (h : ∀ l ∈ ls, '\n' ∉ l ∧ '\r' ∉ l) :
    csvLines (joinLinesCRLF ls) = ls.filter (fun l => !(jsTrim l).isEmpty) := by
  induction ls with
  | nil => rfl
  | cons l ls' ih =>
    cases ls' with
    | nil =>
      show csvLines l = [l].filter _
      unfold csvLines
      rw [show splitChar '\n' l = [l] from
        splitPred_no_sep _ l (fun c hc => by
          have := (h l (List.mem_cons_self l [])).1
          show decide (c = '\n') = false
          exact decide_eq_false (fun he => this (he ▸ hc))),
        List.map_cons, List.map_nil,
        stripCR_of_not_mem l (h l (List.mem_cons_self l [])).2]
    | cons l2 ls'' =>
      have hl := h l (List.mem_cons_self l _)
      have hrest : ∀ x ∈ l2 :: ls'', '\n' ∉ x ∧ '\r' ∉ x :=
        fun x hx => h x (List.mem_cons_of_mem l hx)
      show csvLines (l ++ '\r' :: '\n' :: joinLinesCRLF (l2 :: ls'')) = _
      unfold csvLines
      rw [show l ++ '\r' :: '\n' :: joinLinesCRLF (l2 :: ls'') =
          (l ++ ['\r']) ++ '\n' :: joinLinesCRLF (l2 :: ls'') from by
        rw [List.append_assoc]
        rfl]
      rw [show splitChar '\n' ((l ++ ['\r']) ++ '\n' :: joinLinesCRLF (l2 :: ls'')) =
          (l ++ ['\r']) :: splitChar '\n' (joinLinesCRLF (l2 :: ls'')) from
        splitPred_append _ (l ++ ['\r']) _ '\n' (by decide)
          (fun c hc => by
            show decide (c = '\n') = false
            apply decide_eq_false
            intro he
            subst he
            rcases List.mem_append.mp hc with hcl | hcr
            · exact hl.1 hcl
            · simp at hcr),
        List.map_cons, stripCR_concat,
        List.filter_cons, List.filter_cons,
        show ((splitChar '\n' (joinLinesCRLF (l2 :: ls''))).map stripCR).filter
            (fun x => !(jsTrim x).isEmpty) =
          (l2 :: ls'').filter (fun x => !(jsTrim x).isEmpty) from ih hrest]

/-- C9 (amended): the batch parser discards the first nonblank line as the
header, skips blank lines, treats `\n` and `\r\n` line endings alike, and
picks the semicolon as delimiter exactly when the header contains one
anywhere — not the first-appearing of comma/semicolon (see the
counterexample: header `a,b;c` yields `;` although `,` appears first). -/
theorem c9_amended_line_handling_and_delimiter :
    (∀ header : List Char, delimiterOf header = if ';' ∈ header then ';' else ',') ∧
    (∀ ls : List (List Char), (∀ l ∈ ls, '\n' ∉ l ∧ '\r' ∉ l) →
      csvLines (joinLinesCRLF ls) = csvLines (joinLines ls) ∧
      csvLines (joinLines ls) = ls.filter (fun l => !(jsTrim l).isEmpty)) ∧
    (∀ text : List Char, parseCSV text =
      match csvLines text with
      | [] => []
      | header :: rows =>
        if rows.isEmpty then []
        else (rows.map (parseLine (delimiterOf header))).filterMap keepValid) := by
  refine ⟨fun header => rfl, fun ls h => ?_, fun text => rfl⟩
  exact ⟨(csvLines_joinLinesCRLF ls h).trans (csvLines_joinLines ls h).symm,
    csvLines_joinLines ls h⟩

/-- C3: a malformed or below-floor row yields no entry and never aborts
the batch: removing such a row from the raw text leaves the parse of the
whole batch unchanged, and the concrete malformed shapes — unparsable
date, unparsable time, fewer than three fields, non-numeric occupancy
(treated as 0, below the floor), occupancy at the noise floor — each
normalize to nothing.  Row failures are modelled by `Option`: `parseLine`
is total, so no row-level exception can escape `parseCSV`. -/
theorem c3_malformed_rows_skipped :
    (∀ (header bad : List Char) (pre post : List (List Char)),
      (∀ l ∈ header :: (pre ++ bad :: post), '\n' ∉ l ∧ '\r' ∉ l) →
      jsTrim header ≠ [] →
      jsTrim bad ≠ [] →
      keepValid (parseLine (delimiterOf header) bad) = none →
      parseCSV (joinLines (header :: (pre ++ bad :: post))) =
        parseCSV (joinLines (header :: (pre ++ post)))) ∧
    keepValid (parseLine ',' "xx/01/24,10:00,50".data) = none ∧
    keepValid (parseLine ',' "01/01/24,xx:00,50".data) = none ∧
    keepValid (parseLine ',' "01/01/24,10:00".data) = none ∧
    keepValid (parseLine ',' "01/01/24,10:00,abc".data) = none ∧
    keepValid (parseLine ',' "01/01/24,10:00,2".data) = none := by
  refine ⟨?_, by decide, by decide, by decide, by decide, by decide⟩
  intro header bad pre post hch hh hb hkeep
  have hch2 : ∀ l ∈ header :: (pre ++ post), '\n' ∉ l ∧ '\r' ∉ l := by
    intro l hl
    apply hch
    rcases List.mem_cons.mp hl with rfl | hl2
    · exact List.mem_cons_self _ _
    · apply List.mem_cons_of_mem
      rcases List.mem_append.mp hl2 with h1 | h2
      · exact List.mem_append.mpr (Or.inl h1)
      · exact List.mem_append.mpr (Or.inr (List.mem_cons_of_mem bad h2))
  have hhB : (!(jsTrim header).isEmpty) = true := by
    simpa [List.isEmpty_iff] using hh
  have hbB : (!(jsTrim bad).isEmpty) = true := by
    simpa [List.isEmpty_iff] using hb
  have hfilter1 : (header :: (pre ++ bad :: post)).filter (fun l => !(jsTrim l).isEmpty) =
      header :: (pre.filter (fun l => !(jsTrim l).isEmpty) ++
        bad :: post.filter (fun l => !(jsTrim l).isEmpty)) := by
    simp [List.filter_cons, List.filter_append, hhB, hbB]
  have hfilter2 : (header :: (pre ++ post)).filter (fun l => !(jsTrim l).isEmpty) =
      header :: (pre.filter (fun l => !(jsTrim l).isEmpty) ++
        post.filter (fun l => !(jsTrim l).isEmpty)) := by
    simp [List.filter_cons, List.filter_append, hhB]
  unfold parseCSV
  rw [csvLines_joinLines _ hch, csvLines_joinLines _ hch2, hfilter1, hfilter2]
  show (if (pre.filter (fun l => !(jsTrim l).isEmpty) ++
        bad :: post.filter (fun l => !(jsTrim l).isEmpty)).isEmpty = true
        then ([] : List AforoEntry)
      else ((pre.filter (fun l => !(jsTrim l).isEmpty) ++
        bad :: post.filter (fun l => !(jsTrim l).isEmpty)).map
          (parseLine (delimiterOf header))).filterMap keepValid) =
    (if (pre.filter (fun l => !(jsTrim l).isEmpty) ++
        post.filter (fun l => !(jsTrim l).isEmpty)).isEmpty = true
        then ([] : List AforoEntry)
      else ((pre.filter (fun l => !(jsTrim l).isEmpty) ++
        post.filter (fun l => !(jsTrim l).isEmpty)).map
          (parseLine (delimiterOf header))).filterMap keepValid)
  rw [show (pre.filter (fun l => !(jsTrim l).isEmpty) ++
      bad :: post.filter (fun l => !(jsTrim l).isEmpty)).isEmpty = false from by
    cases pre.filter (fun l => !(jsTrim l).isEmpty) <;> rfl]
  simp only [Bool.false_eq_true, if_false]
  by_cases hR2 : (pre.filter (fun l => !(jsTrim l).isEmpty) ++
      post.filter (fun l => !(jsTrim l).isEmpty)).isEmpty = true
  · rw [if_pos hR2]
    rcases List.append_eq_nil.mp (List.isEmpty_iff.mp hR2) with ⟨hpre, hpost⟩
    rw [hpre, hpost, List.nil_append, List.map_cons, List.map_nil, List.filterMap_cons, hkeep]
    rfl
  · rw [if_neg hR2, List.map_append, List.filterMap_append, List.map_cons,
      List.filterMap_cons, hkeep, List.map_append, List.filterMap_append]

/-- Witness for C3 at a concrete batch: inserting the bad-date row
`xx/01/24,10:00,50` between two good rows leaves the parsed batch
unchanged. -/
theorem c3_malformed_rows_skipped_witness :
    parseCSV (joinLines ["fecha,hora,aforo".data,
      "01/01/24,10:00,50".data, "xx/01/24,10:00,50".data, "02/01/24,11:00,60".data]) =
    parseCSV (joinLines ["fecha,hora,aforo".data,
      "01/01/24,10:00,50".data, "02/01/24,11:00,60".data]) :=
  c3_malformed_rows_skipped.1 "fecha,hora,aforo".data "xx/01/24,10:00,50".data
    ["01/01/24,10:00,50".data] ["02/01/24,11:00,60".data]
    (by decide) (by decide) (by decide) (by decide)

end GymFlow